import Mathlib

/-!
Verification of the Farkle rules engine (`src/farkle/gameplay.py`).

The Python module is shallowly embedded:

* `Action` (a `NamedTuple` of a face→count dict, a name string, and a point
  value) becomes a structure whose `used` field is an association list
  `List (Nat × Nat)` mirroring the dict (keys distinct, insertion order kept).
* A die (`Dice`) is identified with its face value (`Nat`): `Dice.__eq__`
  compares only `value`, and all game logic reads only `value`.
* `State` becomes a record; the `scores` dict becomes an association list
  `List (Nat × Int)`; `can_roll` is `Int` (Python ints may go negative in
  `play_dice`); `rolled_dice` is the list of face values.
* Randomness is passed explicitly: `roll` takes a function giving the face of
  the i-th freshly drawn die.
* Fallible operations (Python `list.remove` raising `ValueError`, dict
  indexing raising `KeyError`) return `Option`.

A second, heap-level embedding (`PyHeap`, `StateObj`, `copyStateH`, …) models
Python object identity and in-place mutation for the immutability claims: the
mutable `rolled_dice` list and `scores` dict live in an explicit heap of
cells, `copy.copy`/`copy.deepcopy` allocate fresh cells, and `list.remove` /
`dict.__setitem__` mutate cells in place.
-/

namespace Farkle

/-- Embeds `Action` (gameplay.py lines 9-18): `used : Dict[int, int]`,
`name : str`, `value : int`.  The dict is modelled as an association list in
insertion order with distinct keys. -/
structure Action where
  used : List (Nat × Nat)
  name : String
  value : Int
deriving DecidableEq, Repr

/-- The control action `Action({}, "roll", 0)` (gameplay.py line 252). -/
def rollAction : Action := ⟨[], "roll", 0⟩

/-- The control action `Action({}, "stop", 0)` (gameplay.py line 253). -/
def stopAction : Action := ⟨[], "stop", 0⟩

/-- The list `pairs` built by `enumerate_options` (gameplay.py lines
212-215): the faces in 1..6 with at least two dice showing them. -/
def threePairsQual (cnt : Nat → Nat) : List Nat :=
  (List.range' 1 6).filter (fun i => 2 ≤ cnt i)

/-- The scoring part of `State.enumerate_options` (gameplay.py lines
201-243): the `opportunities` list as built before the bankrupt check and
before the control actions are appended.  `cnt v` is `dice_counts[v]`
(a `Counter` returns 0 for missing keys). -/
def scoringOpportunities (cnt : Nat → Nat) : List Action :=
  -- Single dice opportunities
  (if 0 < cnt 1 then [⟨[(1, 1)], "1", 100⟩] else []) ++
  (if 0 < cnt 5 then [⟨[(5, 1)], "5", 50⟩] else []) ++
  -- Three pairs: pairs = [i for i in range(1, 7) if dice_counts[i] >= 2]
  (if (threePairsQual cnt).length = 3 then
     [⟨(threePairsQual cnt).map (fun i => (i, 2)), "Three pairs", 1500⟩]
   else []) ++
  -- Three of a kind
  (if 3 ≤ cnt 1 then [⟨[(1, 3)], "Three 1\x27s", 1000⟩] else []) ++
  ((List.range' 2 5).flatMap (fun i =>
    if 3 ≤ cnt i then
      [⟨[(i, 3)], "Three " ++ toString i ++ "\x27s", (i : Int) * 100⟩]
    else [])) ++
  -- Four / five / six of a kind, one pass over range(1, 7)
  ((List.range' 1 6).flatMap (fun i =>
    (if 4 ≤ cnt i then
      [⟨[(i, 4)], "Four " ++ toString i ++ "\x27s", 1000⟩] else []) ++
    (if 5 ≤ cnt i then
      [⟨[(i, 5)], "Five " ++ toString i ++ "\x27s", 2000⟩] else []) ++
    (if cnt i = 6 then
      [⟨[(i, 6)], "Six " ++ toString i ++ "\x27s", 3000⟩] else []))) ++
  -- Straight
  (if (List.range' 1 6).all (fun i => 0 < cnt i) then
    [⟨(List.range' 1 6).map (fun i => (i, 1)), "1-2-3-4-5-6", 3000⟩]
  else [])

/-- Embeds `State.enumerate_options` (gameplay.py lines 179-255) as a function
of the rolled dice faces and `can_roll`.  After building `opportunities`:
`if len(opportunities) == 0 and self.can_roll == 0: return []`, then
`if self.can_roll > 0:` append `roll` and `stop`. -/
def enumerate_options (rolled : List Nat) (can_roll : Int) : List Action :=
  let cnt : Nat → Nat := fun v => rolled.count v
  let opportunities := scoringOpportunities cnt
  if opportunities.length = 0 ∧ can_roll = 0 then []
  else if 0 < can_roll then opportunities ++ [rollAction, stopAction]
  else opportunities

/-- Embeds `State` (gameplay.py lines 76-93).  The fields mirror the Python
attributes; `scores` is the dict `{player: score}` as an association list. -/
structure State where
  n_players : Nat
  current_round : Nat
  scores : List (Nat × Int)
  can_roll : Int
  rolled_dice : List Nat
  turn_sum : Int
deriving DecidableEq, Repr

/-- Embeds `State.__init__` (gameplay.py lines 87-93). -/
def State.init (n_players : Nat) : State where
  n_players := n_players
  current_round := 0
  scores := (List.range n_players).map (fun i => (i, 0))
  can_roll := 6
  rolled_dice := []
  turn_sum := 0

/-- Embeds the `current_player` property (gameplay.py lines 118-120):
`current_round % n_players`.  (Python raises `ZeroDivisionError` when
`n_players = 0`; theorems needing `current_player` assume `0 < n_players`.) -/
def State.current_player (s : State) : Nat :=
  s.current_round % s.n_players

/-- In-place `out.scores[key] += v` on the dict (gameplay.py line 146): add
`v` to the value at the first entry with the given key; `none` models the
`KeyError` raised when the key is absent. -/
def dictIncr : List (Nat × Int) → Nat → Int → Option (List (Nat × Int))
  | [], _, _ => none
  | (k, x) :: rest, key, v =>
    if k = key then some ((k, x + v) :: rest)
    else (dictIncr rest key v).map (fun r => (k, x) :: r)

/-- Embeds `State.end_turn` (gameplay.py lines 122-147): a fresh
`State(n_players)` with `current_round + 1` and a deep copy of `scores`;
when not forced, `out.scores[self.current_player] += self.turn_sum`.
`none` models the `KeyError` on a malformed scores dict (for states produced
by the game the current player is always a key). -/
def State.end_turn (s : State) (forced : Bool) : Option State :=
  let out : State :=
    { State.init s.n_players with
      current_round := s.current_round + 1
      scores := s.scores }
  if forced then some out
  else (dictIncr out.scores s.current_player s.turn_sum).map
    (fun sc => { out with scores := sc })

/-- Embeds `State.roll` (gameplay.py lines 149-153): a copy of `self` with
`rolled_dice` replaced by `can_roll` freshly drawn dice and `can_roll` set to
0.  `rand i` is the face of the i-th drawn die; `Int.toNat` matches Python
`range`, which is empty on a non-positive argument. -/
def State.roll (s : State) (rand : Nat → Nat) : State :=
  { s with
    rolled_dice := (List.range s.can_roll.toNat).map rand
    can_roll := 0 }

/-- One `out.rolled_dice.remove(Dice(k))` (gameplay.py line 175):
`list.remove` deletes the first element equal to `Dice(k)` (dice compare by
face value) and raises `ValueError` (`none`) when no element matches. -/
def removeOne (l : List Nat) (k : Nat) : Option (List Nat) :=
  if k ∈ l then some (l.erase k) else none

/-- The inner `for _ in range(v)` loop of `play_dice`: remove `v` copies of
face `k` in sequence. -/
def removeN (l : List Nat) (k : Nat) : Nat → Option (List Nat)
  | 0 => some l
  | v + 1 => (removeOne l k).bind (fun l2 => removeN l2 k v)

/-- The `for k, v in action.used.items()` loop of `play_dice` (gameplay.py
lines 172-175), acting on the rolled-dice list. -/
def removeUsed (l : List Nat) : List (Nat × Nat) → Option (List Nat)
  | [] => some l
  | (k, v) :: rest => (removeN l k v).bind (fun l2 => removeUsed l2 rest)

/-- Total count the action demands of face `f`: the contribution of the
`used` dict to face `f` (0 for faces that are not keys).  The sub-multiset
condition "`action.consumed ⊆` held dice" is `∀ f, usedCount used f ≤
count f heldDice`. -/
def usedCount : List (Nat × Nat) → Nat → Nat
  | [], _ => 0
  | (k, v) :: rest, f => (if k = f then v else 0) + usedCount rest f

/-- Embeds `n_played = sum(action.used.values())` (gameplay.py line 162). -/
def usedTotal (used : List (Nat × Nat)) : Nat :=
  (used.map Prod.snd).sum

/-- Embeds `State.play_dice` (gameplay.py lines 155-177): add `action.value`
to `turn_sum`, set `can_roll` to `len(rolled_dice) - n_played` (6 when that
is 0: hot dice), and remove the consumed dice one by one.  `none` models the
`ValueError` raised by `list.remove` when a demanded die is absent. -/
def State.play_dice (s : State) (a : Action) : Option State :=
  let n_played := usedTotal a.used
  let new_can_roll : Int := (s.rolled_dice.length : Int) - (n_played : Int)
  (removeUsed s.rolled_dice a.used).map (fun l2 =>
    { s with
      turn_sum := s.turn_sum + a.value
      can_roll := if new_can_roll = 0 then 6 else new_can_roll
      rolled_dice := l2 })

/-- Python `str.lower()` on an action name: lower-case each character.
(Structural recursion over the character list, so that proofs can evaluate
it; it agrees with `str.lower` on the ASCII names used by the game.) -/
def pyLower (s : String) : String := ⟨s.data.map Char.toLower⟩

/-- Embeds the dispatch of `Farkle.step` (gameplay.py lines 329-342) on the
current state: `stop` → `end_turn(forced=False)`, `roll` → `roll()`,
`bankrupt` → `end_turn(forced=True)`, anything else → `play_dice(action)`.
The randomness for the `roll` branch is passed explicitly. -/
def step (s : State) (rand : Nat → Nat) (a : Action) : Option State :=
  if pyLower a.name = "stop" then s.end_turn false
  else if pyLower a.name = "roll" then some (s.roll rand)
  else if pyLower a.name = "bankrupt" then s.end_turn true
  else s.play_dice a

/-! ### Heap-level embedding for object identity and in-place mutation

`State` objects hold two mutable containers: the `rolled_dice` list and the
`scores` dict.  To settle the immutability claims we model those containers
as cells in an explicit heap; a `StateObj` stores cell addresses.  Plain
attributes (`current_round`, `can_roll`, `turn_sum`, `_n_players`) are never
reassigned on an existing object by any transition (the source only assigns
them on the freshly created `out`), so they are record fields of `StateObj`.
`copy.deepcopy` of a container allocates a fresh cell with the same content,
exactly as the `__dict__` setter (gameplay.py lines 108-111) does for
`__copy__` (lines 113-116). -/

/-- The heap: `lists` holds the `rolled_dice` list cells, `dicts` the
`scores` dict cells; a cell address is its index. -/
structure PyHeap where
  lists : List (List Nat)
  dicts : List (List (Nat × Int))
deriving DecidableEq, Repr

/-- Allocate a fresh list cell; returns the new heap and the address. -/
def allocList (h : PyHeap) (v : List Nat) : PyHeap × Nat :=
  ({ h with lists := h.lists ++ [v] }, h.lists.length)

/-- Allocate a fresh dict cell; returns the new heap and the address. -/
def allocDict (h : PyHeap) (v : List (Nat × Int)) : PyHeap × Nat :=
  ({ h with dicts := h.dicts ++ [v] }, h.dicts.length)

/-- Content of the list cell at address `a`. -/
def listAt (h : PyHeap) (a : Nat) : List Nat :=
  h.lists.getD a []

/-- Content of the dict cell at address `a`. -/
def dictAt (h : PyHeap) (a : Nat) : List (Nat × Int) :=
  h.dicts.getD a []

/-- Overwrite the list cell at address `a` (in-place mutation). -/
def setListAt (h : PyHeap) (a : Nat) (v : List Nat) : PyHeap :=
  { h with lists := h.lists.set a v }

/-- Overwrite the dict cell at address `a` (in-place mutation). -/
def setDictAt (h : PyHeap) (a : Nat) (v : List (Nat × Int)) : PyHeap :=
  { h with dicts := h.dicts.set a v }

/-- A Python `State` object: plain attributes inline, mutable containers by
address (`scoresA` for the `scores` dict, `rolledA` for the `rolled_dice`
list). -/
structure StateObj where
  n_players : Nat
  current_round : Nat
  scoresA : Nat
  can_roll : Int
  rolledA : Nat
  turn_sum : Int
deriving DecidableEq, Repr

/-- Heap-level `State.__init__`: allocates the scores dict (line 90), then
the empty rolled-dice list (line 92). -/
def stateInitH (h : PyHeap) (n : Nat) : PyHeap × StateObj :=
  let hd := allocDict h ((List.range n).map (fun i => (i, 0)))
  let hl := allocList hd.1 []
  (hl.1, ⟨n, 0, hd.2, 6, hl.2, 0⟩)

/-- Heap-level `State.__copy__` (gameplay.py lines 113-116): build
`State(self._n_players)`, then the `__dict__` setter deep-copies each public
attribute in `__dir__` order (`current_round`, `scores`, `can_roll`,
`rolled_dice`, `turn_sum`), allocating fresh cells for the containers. -/
def copyStateH (h : PyHeap) (s : StateObj) : PyHeap × StateObj :=
  let hi := stateInitH h s.n_players
  let hd := allocDict hi.1 (dictAt h s.scoresA)
  let hl := allocList hd.1 (listAt h s.rolledA)
  (hl.1,
   { hi.2 with
     current_round := s.current_round
     scoresA := hd.2
     can_roll := s.can_roll
     rolledA := hl.2
     turn_sum := s.turn_sum })

/-- Heap-level `State.roll` (gameplay.py lines 149-153): copy, then rebind
`out.rolled_dice` to a fresh list of `can_roll` drawn dice and set
`out.can_roll = 0`. -/
def rollH (h : PyHeap) (s : StateObj) (rand : Nat → Nat) : StateObj × PyHeap :=
  let hc := copyStateH h s
  let hl := allocList hc.1 ((List.range s.can_roll.toNat).map rand)
  ({ hc.2 with rolledA := hl.2, can_roll := 0 }, hl.1)

/-- One in-place `out.rolled_dice.remove(Dice(k))` on the cell at `a`;
`none` models the `ValueError` when no die shows face `k`. -/
def removeListAt (h : PyHeap) (a : Nat) (k : Nat) : Option PyHeap :=
  if k ∈ listAt h a then some (setListAt h a ((listAt h a).erase k)) else none

/-- Heap-level inner removal loop: remove `v` dice of face `k` from the cell
at `a`.  The `Bool` is `false` when a `ValueError` was raised; the returned
heap is the heap at that moment (mutations before the failure persist). -/
def removeNH (h : PyHeap) (a k : Nat) : Nat → Bool × PyHeap
  | 0 => (true, h)
  | v + 1 =>
    match removeListAt h a k with
    | some h2 => removeNH h2 a k v
    | none => (false, h)

/-- Heap-level `for k, v in action.used.items()` loop of `play_dice`. -/
def removeUsedH (h : PyHeap) (a : Nat) : List (Nat × Nat) → Bool × PyHeap
  | [] => (true, h)
  | (k, v) :: rest =>
    let r := removeNH h a k v
    if r.1 then removeUsedH r.2 a rest else (false, r.2)

/-- Heap-level `State.play_dice` (gameplay.py lines 155-177): copy `self`,
update the plain attributes of `out`, then mutate `out`'s rolled-dice cell
in place.  On a `ValueError` the result is `none` and the heap keeps the
mutations made before the failure. -/
def playDiceH (h : PyHeap) (s : StateObj) (a : Action) : Option StateObj × PyHeap :=
  let hc := copyStateH h s
  let n_played := usedTotal a.used
  let ncr : Int := ((listAt h s.rolledA).length : Int) - (n_played : Int)
  let o : StateObj :=
    { hc.2 with
      turn_sum := hc.2.turn_sum + a.value
      can_roll := if ncr = 0 then 6 else ncr }
  let r := removeUsedH hc.1 o.rolledA a.used
  (if r.1 then some o else none, r.2)

/-- Heap-level `State.end_turn` (gameplay.py lines 122-147): fresh
`State(n_players)`, rebind `out.scores` to a deep copy of `self.scores`,
and when not forced mutate that copy at the current player's key (`none`
models the `KeyError` when the key is absent). -/
def endTurnH (h : PyHeap) (s : StateObj) (forced : Bool) : Option StateObj × PyHeap :=
  let hi := stateInitH h s.n_players
  let hd := allocDict hi.1 (dictAt h s.scoresA)
  let o : StateObj :=
    { hi.2 with current_round := s.current_round + 1, scoresA := hd.2 }
  if forced then (some o, hd.1)
  else
    match dictIncr (dictAt hd.1 hd.2) (s.current_round % s.n_players) s.turn_sum with
    | some d2 => (some o, setDictAt hd.1 hd.2 d2)
    | none => (none, hd.1)

/-- Well-formed object: its cell addresses are allocated in the heap. -/
def WF (h : PyHeap) (s : StateObj) : Prop :=
  s.rolledA < h.lists.length ∧ s.scoresA < h.dicts.length

instance (h : PyHeap) (s : StateObj) : Decidable (WF h s) := by
  unfold WF; infer_instance

/-! ### Reachability (traces of the public transition functions) -/

/-- States reachable from a fresh game state by `roll`, `play_dice` with an
action offered by `enumerate_options` on the current state, and `end_turn`. -/
inductive Reachable : State → Prop where
  | init (n : Nat) : Reachable (State.init n)
  | roll (s : State) (rand : Nat → Nat) :
      Reachable s → Reachable (s.roll rand)
  | play (s s2 : State) (a : Action) : Reachable s →
      a ∈ enumerate_options s.rolled_dice s.can_roll →
      s.play_dice a = some s2 → Reachable s2
  | endTurn (s s2 : State) (forced : Bool) : Reachable s →
      s.end_turn forced = some s2 → Reachable s2

/-! ### Concrete inputs used by witnesses and counterexamples -/

/-- A two-player state with 100 unbanked points (fresh state otherwise). -/
def stateStop100 : State := { State.init 2 with turn_sum := 100 }

/-- The repository test fixture `two_player_state`
(test_gameplay.py lines 5-11). -/
def stateSum200 : State :=
  { State.init 2 with turn_sum := 200, can_roll := 2, rolled_dice := [5, 5, 5, 5] }

/-- The repository test fixture `two_player_just_rolled`
(test_gameplay.py lines 14-20). -/
def stateJustRolled : State :=
  { State.init 2 with can_roll := 0, rolled_dice := [1, 2, 3, 4, 5, 5] }

/-- A small heap: one rolled-dice list cell `[1, 2]` at address 0 and one
scores dict cell `{0: 0, 1: 0}` at address 0. -/
def heapW : PyHeap := ⟨[[1, 2]], [[(0, 0), (1, 0)]]⟩

/-- A two-player state object over `heapW` with 100 unbanked points and two
dice eligible to roll. -/
def stateObjW : StateObj := ⟨2, 0, 0, 2, 0, 100⟩

/-- All names a scoring action can carry, in enumeration order (used to
show the enumerator never emits duplicates: the emitted names follow this
list, whose entries are pairwise distinct). -/
def masterScoringNames : List String :=
  ["1", "5", "Three pairs", "Three 1\x27s", "Three 2\x27s", "Three 3\x27s",
   "Three 4\x27s", "Three 5\x27s", "Three 6\x27s",
   "Four 1\x27s", "Five 1\x27s", "Six 1\x27s", "Four 2\x27s", "Five 2\x27s",
   "Six 2\x27s", "Four 3\x27s", "Five 3\x27s", "Six 3\x27s", "Four 4\x27s",
   "Five 4\x27s", "Six 4\x27s", "Four 5\x27s", "Five 5\x27s", "Six 5\x27s",
   "Four 6\x27s", "Five 6\x27s", "Six 6\x27s", "1-2-3-4-5-6"]

/-! ### Helper lemmas: the scores dict -/

/-- `dictIncr` succeeds whenever the key is present. -/
theorem dictIncr_some (l : List (Nat × Int)) (key : Nat) (v : Int)
    (h : key ∈ l.map Prod.fst) : ∃ r, dictIncr l key v = some r := by
  induction l with
  | nil => simp at h
  | cons p rest ih =>
    obtain ⟨k, x⟩ := p
    by_cases hk : k = key
    · subst hk
      exact ⟨(k, x + v) :: rest, by simp [dictIncr]⟩
    · simp only [List.map_cons, List.mem_cons] at h
      rcases h with h | h
      · exact absurd h.symm hk
      · obtain ⟨r, hr⟩ := ih h
        exact ⟨(k, x) :: r, by simp [dictIncr, hk, hr]⟩

/-- `dictIncr` adds exactly `v` at the given key. -/
theorem dictIncr_lookup_self (l : List (Nat × Int)) (key : Nat) (v : Int)
    (r : List (Nat × Int)) (h : dictIncr l key v = some r) :
    ∃ x, l.lookup key = some x ∧ r.lookup key = some (x + v) := by
  induction l generalizing r with
  | nil => simp [dictIncr] at h
  | cons p rest ih =>
    obtain ⟨k, x⟩ := p
    by_cases hk : k = key
    · subst hk
      simp [dictIncr] at h
      subst h
      simp [List.lookup]
    · simp [dictIncr, hk] at h
      obtain ⟨r2, hr2, hr⟩ := h
      obtain ⟨x2, hx2, hx2r⟩ := ih r2 hr2
      subst hr
      refine ⟨x2, ?_, ?_⟩ <;>
        simp [List.lookup, show (key == k) = false by simp [Ne.symm hk], hx2, hx2r]

/-- `dictIncr` leaves every other key untouched. -/
theorem dictIncr_lookup_ne (l : List (Nat × Int)) (key : Nat) (v : Int)
    (r : List (Nat × Int)) (p : Nat) (h : dictIncr l key v = some r) (hp : p ≠ key) :
    r.lookup p = l.lookup p := by
  induction l generalizing r with
  | nil => simp [dictIncr] at h
  | cons q rest ih =>
    obtain ⟨k, x⟩ := q
    by_cases hk : k = key
    · subst hk
      simp [dictIncr] at h
      subst h
      simp [List.lookup, show (p == k) = false by simp [hp]]
    · simp [dictIncr, hk] at h
      obtain ⟨r2, hr2, hr⟩ := h
      subst hr
      by_cases hpk : p = k
      · simp [List.lookup, hpk]
      · simp [List.lookup, show (p == k) = false by simp [hpk], ih r2 hr2]

/-- Every entry of a `dictIncr` result is an old entry or an old entry with
`v` added. -/
theorem dictIncr_mem (l : List (Nat × Int)) (key : Nat) (v : Int)
    (r : List (Nat × Int)) (h : dictIncr l key v = some r) :
    ∀ kv ∈ r, kv ∈ l ∨ ∃ x, (kv.1, x) ∈ l ∧ kv.2 = x + v := by
  induction l generalizing r with
  | nil => simp [dictIncr] at h
  | cons q rest ih =>
    obtain ⟨k, x⟩ := q
    by_cases hk : k = key
    · subst hk
      simp [dictIncr] at h
      subst h
      intro kv hkv
      rcases List.mem_cons.mp hkv with h1 | h1
      · exact Or.inr ⟨x, by simp [h1]⟩
      · exact Or.inl (List.mem_cons_of_mem _ h1)
    · simp [dictIncr, hk] at h
      obtain ⟨r2, hr2, hr⟩ := h
      subst hr
      intro kv hkv
      rcases List.mem_cons.mp hkv with h1 | h1
      · exact Or.inl (by simp [h1])
      · rcases ih r2 hr2 kv h1 with h2 | ⟨x2, hx2, he⟩
        · exact Or.inl (List.mem_cons_of_mem _ h2)
        · exact Or.inr ⟨x2, List.mem_cons_of_mem _ hx2, he⟩

/-! ### Helper lemmas: dice removal -/

theorem usedTotal_cons (k v : Nat) (rest : List (Nat × Nat)) :
    usedTotal ((k, v) :: rest) = v + usedTotal rest := by simp [usedTotal]

theorem usedCount_eq_zero_of_not_mem (used : List (Nat × Nat)) (f : Nat)
    (h : f ∉ used.map Prod.fst) : usedCount used f = 0 := by
  induction used with
  | nil => rfl
  | cons p rest ih =>
    obtain ⟨k, v⟩ := p
    simp only [List.map_cons, List.mem_cons] at h
    push_neg at h
    simp [usedCount, Ne.symm h.1, ih h.2]

/-- Removing `v` copies of face `k` succeeds when enough are held, removes
exactly `v` of that face, and touches no other face. -/
theorem removeN_le (l : List Nat) (k v : Nat) (h : v ≤ l.count k) :
    ∃ l2, removeN l k v = some l2 ∧ l2.count k = l.count k - v ∧
      (∀ f, f ≠ k → l2.count f = l.count f) ∧ l2.length + v = l.length := by
  induction v generalizing l with
  | zero => exact ⟨l, rfl, by omega, fun f _ => rfl, by omega⟩
  | succ v ih =>
    have hk : k ∈ l := List.count_pos_iff.mp (by omega)
    have hcount : (l.erase k).count k = l.count k - 1 := List.count_erase_self k l
    obtain ⟨l2, h1, h2, h3, h4⟩ := ih (l.erase k) (by omega)
    refine ⟨l2, ?_, ?_, ?_, ?_⟩
    · simp [removeN, removeOne, hk, h1]
    · omega
    · intro f hf
      rw [h3 f hf, List.count_erase_of_ne hf]
    · have hlen : 0 < l.length := List.length_pos.mpr (List.ne_nil_of_mem hk)
      have := List.length_erase_of_mem hk
      omega

/-- Removing more copies of a face than are held raises `ValueError`. -/
theorem removeN_gt (l : List Nat) (k v : Nat) (h : l.count k < v) :
    removeN l k v = none := by
  induction v generalizing l with
  | zero => omega
  | succ v ih =>
    by_cases hk : k ∈ l
    · have h1 : (l.erase k).count k = l.count k - 1 := List.count_erase_self k l
      have h2 : 0 < l.count k := List.count_pos_iff.mpr hk
      simp only [removeN, removeOne, hk, if_pos, Option.bind_some]
      exact ih _ (by omega)
    · simp [removeN, removeOne, hk]

/-- When the action consumes a sub-multiset of the held dice, the removal
loop succeeds and removes exactly the consumed counts. -/
theorem removeUsed_le (used : List (Nat × Nat)) (l : List Nat)
    (h : ∀ f, usedCount used f ≤ l.count f) :
    ∃ l2, removeUsed l used = some l2 ∧
      (∀ f, l2.count f = l.count f - usedCount used f) ∧
      l2.length + usedTotal used = l.length := by
  induction used generalizing l with
  | nil => exact ⟨l, rfl, fun f => by simp [usedCount], by simp [usedTotal]⟩
  | cons p rest ih =>
    obtain ⟨k, v⟩ := p
    have hvk : v ≤ l.count k := by have := h k; simp [usedCount] at this; omega
    obtain ⟨l1, h1, h2, h3, h4⟩ := removeN_le l k v hvk
    have hrest : ∀ f, usedCount rest f ≤ l1.count f := by
      intro f
      by_cases hf : f = k
      · subst hf
        have := h f
        simp [usedCount] at this
        omega
      · rw [h3 f hf]
        have := h f
        simp [usedCount, Ne.symm hf] at this
        omega
    obtain ⟨l2, g1, g2, g3⟩ := ih l1 hrest
    refine ⟨l2, ?_, ?_, ?_⟩
    · simp [removeUsed, h1, g1]
    · intro f
      rw [g2 f]
      by_cases hf : f = k
      · subst hf
        have := h f
        simp [usedCount] at this ⊢
        omega
      · rw [h3 f hf]
        simp [usedCount, Ne.symm hf]
    · rw [usedTotal_cons]
      omega

/-- When the action demands more of some face than is held, the removal loop
raises `ValueError`. -/
theorem removeUsed_gt (used : List (Nat × Nat)) (l : List Nat)
    (h : ∃ f, l.count f < usedCount used f) :
    removeUsed l used = none := by
  induction used generalizing l with
  | nil => obtain ⟨f, hf⟩ := h; simp [usedCount] at hf
  | cons p rest ih =>
    obtain ⟨k, v⟩ := p
    by_cases hvk : v ≤ l.count k
    · obtain ⟨l1, h1, h2, h3, h4⟩ := removeN_le l k v hvk
      simp only [removeUsed, h1, Option.bind_some]
      apply ih
      obtain ⟨f, hf⟩ := h
      refine ⟨f, ?_⟩
      by_cases hfk : f = k
      · subst hfk
        simp [usedCount] at hf
        omega
      · rw [h3 f hfk]
        simpa [usedCount, Ne.symm hfk] using hf
    · rw [show removeUsed l ((k, v) :: rest) =
          (removeN l k v).bind (fun l2 => removeUsed l2 rest) from rfl,
        removeN_gt l k v (by omega)]
      rfl

/-! ### Helper lemmas: the shape of the enumeration -/

/-- The enumeration is the scoring opportunities followed by `roll`/`stop`
exactly when `can_roll > 0` (the bankrupt branch coincides with this shape
because it fires only when both parts are empty). -/
theorem enumerate_options_eq (rolled : List Nat) (cr : Int) :
    enumerate_options rolled cr =
      scoringOpportunities (fun v => rolled.count v) ++
        (if 0 < cr then [rollAction, stopAction] else []) := by
  simp only [enumerate_options]
  split_ifs with h1 h2 h3
  · exact absurd h2 (by simp [h1.2])
  · simp [List.length_eq_zero.mp h1.1]
  · rfl
  · simp

/-- Membership in the scoring opportunities, rule by rule. -/
theorem mem_scoringOpportunities (cnt : Nat → Nat) (a : Action) :
    a ∈ scoringOpportunities cnt ↔
      (0 < cnt 1 ∧ a = ⟨[(1, 1)], "1", 100⟩) ∨
      (0 < cnt 5 ∧ a = ⟨[(5, 1)], "5", 50⟩) ∨
      ((threePairsQual cnt).length = 3 ∧
        a = ⟨(threePairsQual cnt).map (fun i => (i, 2)), "Three pairs", 1500⟩) ∨
      (3 ≤ cnt 1 ∧ a = ⟨[(1, 3)], "Three 1\x27s", 1000⟩) ∨
      (∃ i ∈ List.range' 2 5, 3 ≤ cnt i ∧
        a = ⟨[(i, 3)], "Three " ++ toString i ++ "\x27s", (i : Int) * 100⟩) ∨
      (∃ i ∈ List.range' 1 6,
        (4 ≤ cnt i ∧ a = ⟨[(i, 4)], "Four " ++ toString i ++ "\x27s", 1000⟩) ∨
        (5 ≤ cnt i ∧ a = ⟨[(i, 5)], "Five " ++ toString i ++ "\x27s", 2000⟩) ∨
        (cnt i = 6 ∧ a = ⟨[(i, 6)], "Six " ++ toString i ++ "\x27s", 3000⟩)) ∨
      ((∀ i ∈ List.range' 1 6, 0 < cnt i) ∧
        a = ⟨(List.range' 1 6).map (fun i => (i, 1)), "1-2-3-4-5-6", 3000⟩) := by
  simp [scoringOpportunities, List.mem_append, List.mem_ite_nil_right,
    List.mem_flatMap, or_assoc, and_assoc]

theorem sublist_ite_singleton {α : Type} (c : Prop) [Decidable c] (x : α) :
    List.Sublist (if c then [x] else []) [x] := by
  split_ifs <;> simp

theorem flatMap_sublist {α β : Type} (l : List α) (f g : α → List β)
    (h : ∀ a ∈ l, List.Sublist (f a) (g a)) :
    List.Sublist (l.flatMap f) (l.flatMap g) := by
  induction l with
  | nil => simp
  | cons x t ih =>
    simp only [List.flatMap_cons]
    exact (h x (by simp)).append (ih fun a ha => h a (by simp [ha]))

/-- The names of the emitted scoring actions follow `masterScoringNames`. -/
theorem scoring_names_sublist (cnt : Nat → Nat) :
    List.Sublist ((scoringOpportunities cnt).map Action.name) masterScoringNames := by
  have htriples : List.Sublist
      ((List.range' 2 5).flatMap fun i =>
        if 3 ≤ cnt i then ["Three " ++ toString i ++ "\x27s"] else [])
      ((List.range' 2 5).flatMap fun i => ["Three " ++ toString i ++ "\x27s"]) :=
    flatMap_sublist _ _ _ (fun a _ => sublist_ite_singleton _ _)
  have hkinds : List.Sublist
      ((List.range' 1 6).flatMap fun i =>
        ((if 4 ≤ cnt i then ["Four " ++ toString i ++ "\x27s"] else []) ++
          if 5 ≤ cnt i then ["Five " ++ toString i ++ "\x27s"] else []) ++
          if cnt i = 6 then ["Six " ++ toString i ++ "\x27s"] else [])
      ((List.range' 1 6).flatMap fun i =>
        (["Four " ++ toString i ++ "\x27s"] ++ ["Five " ++ toString i ++ "\x27s"]) ++
          ["Six " ++ toString i ++ "\x27s"]) := by
    refine flatMap_sublist _ _ _ (fun a _ => ?_)
    exact List.Sublist.append (List.Sublist.append (sublist_ite_singleton _ _)
      (sublist_ite_singleton _ _)) (sublist_ite_singleton _ _)
  have hm : masterScoringNames =
      (((((["1"] ++ ["5"]) ++ ["Three pairs"]) ++ ["Three 1\x27s"]) ++
        ((List.range' 2 5).flatMap fun i => ["Three " ++ toString i ++ "\x27s"])) ++
        ((List.range' 1 6).flatMap fun i =>
          (["Four " ++ toString i ++ "\x27s"] ++ ["Five " ++ toString i ++ "\x27s"]) ++
            ["Six " ++ toString i ++ "\x27s"])) ++ ["1-2-3-4-5-6"] := by decide
  rw [hm]
  simp only [scoringOpportunities, List.map_append, apply_ite (List.map Action.name),
    List.map_flatMap, List.map_nil, List.map_cons]
  exact List.Sublist.append (List.Sublist.append (List.Sublist.append (List.Sublist.append
    (List.Sublist.append (sublist_ite_singleton _ _) (sublist_ite_singleton _ _))
    (sublist_ite_singleton _ _)) (sublist_ite_singleton _ _)) htriples) hkinds
    |>.append (sublist_ite_singleton _ _)

/-- Every scoring action the enumerator emits has non-negative points. -/
theorem scoring_value_nonneg (cnt : Nat → Nat) (a : Action)
    (h : a ∈ scoringOpportunities cnt) : 0 ≤ a.value := by
  rw [mem_scoringOpportunities] at h
  rcases h with ⟨-, rfl⟩ | ⟨-, rfl⟩ | ⟨-, rfl⟩ | ⟨-, rfl⟩ | ⟨i, -, -, rfl⟩ |
    ⟨i, -, ⟨-, rfl⟩ | ⟨-, rfl⟩ | ⟨-, rfl⟩⟩ | ⟨-, rfl⟩ <;> simp

/-- Every action the enumerator returns has non-negative points. -/
theorem enumerate_value_nonneg (rolled : List Nat) (cr : Int) (a : Action)
    (h : a ∈ enumerate_options rolled cr) : 0 ≤ a.value := by
  rw [enumerate_options_eq] at h
  rcases List.mem_append.mp h with h | h
  · exact scoring_value_nonneg _ _ h
  · simp only [List.mem_ite_nil_right, List.mem_cons, List.not_mem_nil, or_false] at h
    rcases h.2 with rfl | rfl <;> simp [rollAction, stopAction]

/-! ### Claim theorems -/

/-- C1 (counterexample): for held dice `{1}` with `eligibleToRoll == 0` the
enumerator produces a scoring action, yet neither `roll` nor `stop` is in
the returned sequence — contradicting the claim that the presence of a
scoring action suffices for `roll`/`stop` to be appended. -/
theorem enumerate_options_scoring_without_roll_stop :
    enumerate_options [1] 0 = [⟨[(1, 1)], "1", 100⟩] ∧
    rollAction ∉ enumerate_options [1] 0 ∧
    stopAction ∉ enumerate_options [1] 0 := by
  decide

/-- C1 (amended): the enumerator appends the control actions `roll` and
`stop` at the end of the sequence exactly when `eligibleToRoll > 0`,
regardless of whether scoring actions were produced; with
`eligibleToRoll == 0` they are never offered. -/
theorem enumerate_options_roll_stop_iff_can_roll_pos (rolled : List Nat) (cr : Int) :
    enumerate_options rolled cr =
      scoringOpportunities (fun v => rolled.count v) ++
        (if 0 < cr then [rollAction, stopAction] else []) :=
  enumerate_options_eq rolled cr

/-- C2 (counterexample): the actions `({}, "stop", 0)` and
`({}, "bankrupt", 0)` agree in consumed mapping and points and differ only
in their label, yet `step` sends a state holding 100 unbanked points to
different successor states (the label decides between banking and
forfeiting the turn sum). -/
theorem step_distinguishes_stop_and_bankrupt_labels :
    (Action.mk [] "stop" 0).used = (Action.mk [] "bankrupt" 0).used ∧
    (Action.mk [] "stop" 0).value = (Action.mk [] "bankrupt" 0).value ∧
    step stateStop100 (fun _ => 1) ⟨[], "stop", 0⟩ ≠
      step stateStop100 (fun _ => 1) ⟨[], "bankrupt", 0⟩ := by
  decide

/-- C2 (amended): the label is not used in logic for scoring actions: for
any two actions equal in consumed mapping and points whose labels are both
none of the control names `roll`/`stop`/`bankrupt` (after lower-casing),
`step` produces identical successor states. -/
theorem step_ignores_scoring_action_label (s : State) (rand : Nat → Nat)
    (used : List (Nat × Nat)) (n1 n2 : String) (v : Int)
    (h1 : pyLower n1 ≠ "stop" ∧ pyLower n1 ≠ "roll" ∧ pyLower n1 ≠ "bankrupt")
    (h2 : pyLower n2 ≠ "stop" ∧ pyLower n2 ≠ "roll" ∧ pyLower n2 ≠ "bankrupt") :
    step s rand ⟨used, n1, v⟩ = step s rand ⟨used, n2, v⟩ := by
  simp only [step, h1.1, h1.2.1, h1.2.2, h2.1, h2.2.1, h2.2.2, if_false,
    if_neg, State.play_dice]

/-- Witness for C2 (amended) at the labels `"1"` and `"anything"`. -/
theorem step_ignores_scoring_action_label_witness :
    step stateJustRolled (fun _ => 1) ⟨[(1, 1)], "1", 100⟩ =
      step stateJustRolled (fun _ => 1) ⟨[(1, 1)], "anything", 100⟩ :=
  step_ignores_scoring_action_label stateJustRolled (fun _ => 1) [(1, 1)]
    "1" "anything" 100 (by decide) (by decide)

/-- C3: `end_turn(forced)` returns a state with the round incremented,
`turn_sum` 0, no held dice and `eligibleToRoll` 6; `end_turn(forced=True)`
keeps the scores dict identical; `end_turn(forced=False)` (for a state whose
scores dict has the current player as a key, as every game state does)
increases exactly the current player's score by the pre-call `turn_sum` and
leaves every other player's score unchanged. -/
theorem end_turn_spec (s : State) :
    (∀ (forced : Bool) (s2 : State), s.end_turn forced = some s2 →
        s2.current_round = s.current_round + 1 ∧ s2.turn_sum = 0 ∧
        s2.rolled_dice = [] ∧ s2.can_roll = 6) ∧
    (∃ s2, s.end_turn true = some s2 ∧ s2.scores = s.scores) ∧
    (s.current_player ∈ s.scores.map Prod.fst →
      ∃ s2 x, s.end_turn false = some s2 ∧
        s.scores.lookup s.current_player = some x ∧
        s2.scores.lookup s.current_player = some (x + s.turn_sum) ∧
        ∀ p, p ≠ s.current_player → s2.scores.lookup p = s.scores.lookup p) := by
  refine ⟨?_, ?_, ?_⟩
  · intro forced s2 h
    cases forced with
    | true =>
      simp [State.end_turn] at h
      subst h
      simp [State.init]
    | false =>
      simp [State.end_turn] at h
      obtain ⟨r, hr, h2⟩ := h
      subst h2
      simp [State.init]
  · exact ⟨_, rfl, rfl⟩
  · intro hmem
    obtain ⟨r, hr⟩ := dictIncr_some s.scores s.current_player s.turn_sum hmem
    obtain ⟨x, hx, hxr⟩ := dictIncr_lookup_self _ _ _ _ hr
    refine ⟨{ State.init s.n_players with
      current_round := s.current_round + 1, scores := r }, x, ?_, hx, ?_, ?_⟩
    · simp [State.end_turn, hr]
    · simpa using hxr
    · intro p hp
      simpa using dictIncr_lookup_ne _ _ _ _ p hr hp

/-- Witness for C3 at the repository fixture (two players, `turn_sum` 200,
round 0): banking stops the turn and credits player 0 with exactly 200. -/
theorem end_turn_spec_witness :
    ∃ s2 x, stateSum200.end_turn false = some s2 ∧
      stateSum200.scores.lookup stateSum200.current_player = some x ∧
      s2.scores.lookup stateSum200.current_player = some (x + stateSum200.turn_sum) ∧
      ∀ p, p ≠ stateSum200.current_player →
        s2.scores.lookup p = stateSum200.scores.lookup p :=
  (end_turn_spec stateSum200).2.2 (by decide)

/-- C4: playing an action whose consumed mapping is a sub-multiset of the
held dice succeeds and yields a state whose `turn_sum` grew by the action's
points, whose held dice are the old ones with exactly the consumed counts
removed (one die per demanded unit), and whose `can_roll` is the remaining
held-dice count, or 6 when that count is zero (hot dice). -/
theorem play_dice_spec (s : State) (a : Action)
    (hsub : ∀ f ∈ a.used.map Prod.fst, usedCount a.used f ≤ s.rolled_dice.count f) :
    ∃ s2, s.play_dice a = some s2 ∧
      s2.turn_sum = s.turn_sum + a.value ∧
      (∀ f, s2.rolled_dice.count f = s.rolled_dice.count f - usedCount a.used f) ∧
      s2.rolled_dice.length + usedTotal a.used = s.rolled_dice.length ∧
      s2.can_roll =
        (if s2.rolled_dice.length = 0 then (6 : Int) else (s2.rolled_dice.length : Int)) := by
  have hsub2 : ∀ f, usedCount a.used f ≤ s.rolled_dice.count f := by
    intro f
    by_cases hf : f ∈ a.used.map Prod.fst
    · exact hsub f hf
    · rw [usedCount_eq_zero_of_not_mem a.used f hf]
      exact Nat.zero_le _
  obtain ⟨l2, h1, h2, h3⟩ := removeUsed_le a.used s.rolled_dice hsub2
  have hs2 : s.play_dice a = some
      { s with
        turn_sum := s.turn_sum + a.value
        can_roll :=
          if ((s.rolled_dice.length : Int) - (usedTotal a.used : Int)) = 0 then 6
          else ((s.rolled_dice.length : Int) - (usedTotal a.used : Int))
        rolled_dice := l2 } := by
    simp [State.play_dice, h1]
  refine ⟨_, hs2, rfl, h2, h3, ?_⟩
  simp only
  have hl : ((s.rolled_dice.length : Int) - (usedTotal a.used : Int)) = (l2.length : Int) := by
    omega
  rw [hl]
  by_cases h0 : l2.length = 0
  · simp [h0]
  · rw [if_neg (by exact_mod_cast h0), if_neg h0]

/-- Witness for C4: playing the single-1 action on the just-rolled fixture
`[1,2,3,4,5,5]` removes one die showing 1 and leaves five dice. -/
theorem play_dice_spec_witness :
    ∃ s2, stateJustRolled.play_dice ⟨[(1, 1)], "1", 100⟩ = some s2 ∧
      s2.turn_sum = stateJustRolled.turn_sum + (100 : Int) ∧
      (∀ f, s2.rolled_dice.count f =
        stateJustRolled.rolled_dice.count f - usedCount [(1, 1)] f) ∧
      s2.rolled_dice.length + usedTotal [(1, 1)] = stateJustRolled.rolled_dice.length ∧
      s2.can_roll =
        (if s2.rolled_dice.length = 0 then (6 : Int) else (s2.rolled_dice.length : Int)) :=
  play_dice_spec stateJustRolled ⟨[(1, 1)], "1", 100⟩ (by decide)

/-- C6: the enumerator emits the three-pairs action (worth 1500, consuming
two of each qualifying face) iff exactly three distinct faces have count at
least 2; and for held dice `{2,2,3,3,4,4}` with `eligibleToRoll == 0` the
enumeration is exactly the three-pairs action. -/
theorem three_pairs_iff (rolled : List Nat) (cr : Int) :
    (Action.mk ((threePairsQual (fun v => rolled.count v)).map (fun i => (i, 2)))
        "Three pairs" 1500 ∈ enumerate_options rolled cr ↔
      (threePairsQual (fun v => rolled.count v)).length = 3) ∧
    enumerate_options [2, 2, 3, 3, 4, 4] 0 =
      [⟨[(2, 2), (3, 2), (4, 2)], "Three pairs", 1500⟩] := by
  refine ⟨?_, by decide⟩
  rw [enumerate_options_eq]
  constructor
  · intro hmem
    rcases List.mem_append.mp hmem with h | h
    · rw [mem_scoringOpportunities] at h
      rcases h with ⟨-, he⟩ | ⟨-, he⟩ | ⟨h3, -⟩ | ⟨-, he⟩ | ⟨i, hi, -, he⟩ |
        ⟨i, hi, hc⟩ | ⟨-, he⟩
      · exact absurd (congrArg Action.name he) (by dsimp only; decide)
      · exact absurd (congrArg Action.name he) (by dsimp only; decide)
      · exact h3
      · exact absurd (congrArg Action.name he) (by dsimp only; decide)
      · simp only [List.range', List.mem_cons, List.not_mem_nil, or_false] at hi
        rcases hi with rfl | rfl | rfl | rfl | rfl <;>
          exact absurd (congrArg Action.name he) (by dsimp only; decide)
      · simp only [List.range', List.mem_cons, List.not_mem_nil, or_false] at hi
        rcases hc with ⟨-, he⟩ | ⟨-, he⟩ | ⟨-, he⟩ <;>
          rcases hi with rfl | rfl | rfl | rfl | rfl | rfl <;>
            exact absurd (congrArg Action.name he) (by dsimp only; decide)
      · exact absurd (congrArg Action.name he) (by dsimp only; decide)
    · simp only [List.mem_ite_nil_right, List.mem_cons, List.not_mem_nil, or_false] at h
      obtain ⟨-, he | he⟩ := h <;>
        exact absurd (congrArg Action.name he) (by dsimp only [rollAction, stopAction]; decide)
  · intro h3
    exact List.mem_append.mpr (Or.inl ((mem_scoringOpportunities _ _).mpr
      (Or.inr (Or.inr (Or.inl ⟨h3, rfl⟩)))))

/-- C7: for every held-dice multiset and every `eligibleToRoll` value, the
enumerator returns no two actions equal in consumed mapping, label, and
points (the returned list has no duplicates). -/
theorem enumerate_options_nodup (rolled : List Nat) (cr : Int) :
    (enumerate_options rolled cr).Nodup := by
  apply List.Nodup.of_map Action.name
  have hsub : List.Sublist ((enumerate_options rolled cr).map Action.name)
      (masterScoringNames ++ ["roll", "stop"]) := by
    rw [enumerate_options_eq, List.map_append]
    refine List.Sublist.append (scoring_names_sublist _) ?_
    split_ifs <;> simp [rollAction, stopAction]
  exact hsub.nodup (by decide)

/-- C8: for `eligibleToRoll ≥ 0` (its actual range 0..6), the enumeration is
empty iff no scoring action exists and `eligibleToRoll == 0`; whenever
`eligibleToRoll > 0` the result is non-empty; and held dice `{3}` with
`eligibleToRoll == 0` yield the empty (bankrupt) enumeration. -/
theorem enumerate_options_empty_iff (rolled : List Nat) (cr : Int) (hcr : 0 ≤ cr) :
    (enumerate_options rolled cr = [] ↔
      scoringOpportunities (fun v => rolled.count v) = [] ∧ cr = 0) ∧
    (0 < cr → enumerate_options rolled cr ≠ []) ∧
    enumerate_options [3] 0 = [] := by
  refine ⟨?_, ?_, by decide⟩
  · rw [enumerate_options_eq]
    constructor
    · intro h
      obtain ⟨h1, h2⟩ := List.append_eq_nil.mp h
      refine ⟨h1, ?_⟩
      by_cases hp : 0 < cr
      · rw [if_pos hp] at h2
        cases h2
      · omega
    · rintro ⟨h1, h2⟩
      simp [h1, h2]
  · intro hp
    rw [enumerate_options_eq, if_pos hp]
    simp

/-- Witness for C8 at the bankrupt input: the claim instantiated at held
dice `{3}` and `eligibleToRoll = 0`. -/
theorem enumerate_options_empty_iff_witness :
    (enumerate_options [3] 0 = [] ↔
      scoringOpportunities (fun v => List.count v [3]) = [] ∧ (0 : Int) = 0) ∧
    ((0 : Int) < 0 → enumerate_options [3] 0 ≠ []) ∧
    enumerate_options [3] 0 = [] :=
  enumerate_options_empty_iff [3] 0 (by decide)

/-- C9: along every trace of `roll`, `play_dice` (with an action offered by
the enumerator), and `end_turn` transitions from a fresh state, the unbanked
`turn_sum` and every entry of the scores dict stay non-negative. -/
theorem reachable_nonneg (s : State) (h : Reachable s) :
    0 ≤ s.turn_sum ∧ ∀ kv ∈ s.scores, 0 ≤ kv.2 := by
  induction h with
  | init n =>
    refine ⟨by simp [State.init], ?_⟩
    intro kv hkv
    simp [State.init] at hkv
    obtain ⟨i, -, rfl⟩ := hkv
    simp
  | roll s rand hs ih => simpa [State.roll] using ih
  | play s s2 a hs hmem hplay ih =>
    have hval := enumerate_value_nonneg _ _ _ hmem
    simp [State.play_dice] at hplay
    obtain ⟨l2, hl2, hs2⟩ := hplay
    subst hs2
    refine ⟨?_, fun kv hkv => ih.2 kv hkv⟩
    have := ih.1
    simp at this ⊢
    omega
  | endTurn s s2 forced hs hend ih =>
    cases forced with
    | true =>
      simp [State.end_turn] at hend
      subst hend
      exact ⟨le_refl 0, fun kv hkv => ih.2 kv hkv⟩
    | false =>
      simp [State.end_turn] at hend
      obtain ⟨r, hr, hs2⟩ := hend
      subst hs2
      refine ⟨le_refl 0, ?_⟩
      intro kv hkv
      rcases dictIncr_mem _ _ _ _ hr kv hkv with h1 | ⟨x, hx, he⟩
      · exact ih.2 kv h1
      · have hx2 := ih.2 (kv.1, x) hx
        simp at hx2
        have ht := ih.1
        omega

/-- Witness for C9: the fresh two-player state is reachable and satisfies
the invariants. -/
theorem reachable_nonneg_witness :
    0 ≤ (State.init 2).turn_sum ∧ ∀ kv ∈ (State.init 2).scores, 0 ≤ kv.2 :=
  reachable_nonneg (State.init 2) (Reachable.init 2)


/-! ### Helper lemmas: the heap model -/


theorem set_getD_self {α : Type} (l : List α) (n : Nat) (d : α) :
    l.set n ((l[n]?).getD d) = l := by
  induction l generalizing n with
  | nil => rfl
  | cons x t ih =>
    cases n with
    | zero => simp
    | succ n => simp [ih]

theorem listAt_setListAt_self (h : PyHeap) (a : Nat) (v : List Nat)
    (ha : a < h.lists.length) : listAt (setListAt h a v) a = v := by
  simp [listAt, setListAt, List.getD_eq_getElem?_getD, List.getElem?_set_self',
    List.getElem?_eq_getElem ha]

theorem listAt_setListAt_ne (h : PyHeap) (a b : Nat) (v : List Nat)
    (hne : b ≠ a) : listAt (setListAt h a v) b = listAt h b := by
  simp [listAt, setListAt, List.getD_eq_getElem?_getD, List.getElem?_set_ne (Ne.symm hne)]

theorem setListAt_setListAt (h : PyHeap) (a : Nat) (v w : List Nat) :
    setListAt (setListAt h a v) a w = setListAt h a w := by
  simp [setListAt, List.set_set]

theorem setListAt_self_eq (h : PyHeap) (a : Nat) :
    setListAt h a (listAt h a) = h := by
  simp only [setListAt, listAt, List.getD_eq_getElem?_getD]
  rw [set_getD_self]

theorem removeNH_run (h : PyHeap) (a k : Nat) (v : Nat) (ha : a < h.lists.length) :
    (removeN (listAt h a) k v = none → (removeNH h a k v).1 = false) ∧
    (∀ l2, removeN (listAt h a) k v = some l2 →
      removeNH h a k v = (true, setListAt h a l2)) := by
  induction v generalizing h with
  | zero =>
    refine ⟨by simp [removeN], ?_⟩
    intro l2 hl2
    simp [removeN] at hl2
    rw [removeNH, ← hl2, setListAt_self_eq]
  | succ v ih =>
    by_cases hk : k ∈ listAt h a
    · have hone : removeOne (listAt h a) k = some ((listAt h a).erase k) := by
        simp [removeOne, hk]
      have hstep : removeListAt h a k = some (setListAt h a ((listAt h a).erase k)) := by
        simp [removeListAt, hk]
      have ha2 : a < (setListAt h a ((listAt h a).erase k)).lists.length := by
        simpa [setListAt] using ha
      have hcontent : listAt (setListAt h a ((listAt h a).erase k)) a =
          (listAt h a).erase k := listAt_setListAt_self h a _ ha
      obtain ⟨ihn, ihs⟩ := ih (setListAt h a ((listAt h a).erase k)) ha2
      constructor
      · intro hn
        simp only [removeN, hone, Option.some_bind] at hn
        rw [show removeNH h a k (v + 1) =
          removeNH (setListAt h a ((listAt h a).erase k)) a k v by
            simp [removeNH, hstep]]
        exact ihn (by rw [hcontent]; exact hn)
      · intro l2 hl2
        simp only [removeN, hone, Option.some_bind] at hl2
        rw [show removeNH h a k (v + 1) =
          removeNH (setListAt h a ((listAt h a).erase k)) a k v by
            simp [removeNH, hstep]]
        rw [ihs l2 (by rw [hcontent]; exact hl2)]
        rw [setListAt_setListAt]
    · have hone : removeOne (listAt h a) k = none := by simp [removeOne, hk]
      have hstep : removeListAt h a k = none := by simp [removeListAt, hk]
      constructor
      · intro hn
        simp [removeNH, hstep]
      · intro l2 hl2
        simp only [removeN, hone, Option.none_bind] at hl2
        cases hl2

theorem removeUsedH_run (used : List (Nat × Nat)) (h : PyHeap) (a : Nat)
    (ha : a < h.lists.length) :
    (removeUsed (listAt h a) used = none → (removeUsedH h a used).1 = false) ∧
    (∀ l2, removeUsed (listAt h a) used = some l2 →
      removeUsedH h a used = (true, setListAt h a l2)) := by
  induction used generalizing h with
  | nil =>
    refine ⟨by simp [removeUsed], ?_⟩
    intro l2 hl2
    simp [removeUsed] at hl2
    rw [removeUsedH, ← hl2, setListAt_self_eq]
  | cons p rest ih =>
    obtain ⟨k, v⟩ := p
    obtain ⟨hn1, hs1⟩ := removeNH_run h a k v ha
    constructor
    · intro hn
      simp only [removeUsed] at hn
      cases hrn : removeN (listAt h a) k v with
      | none =>
        have := hn1 hrn
        simp [removeUsedH, this]
      | some l1 =>
        rw [hrn] at hn
        simp only [Option.some_bind] at hn
        have hr := hs1 l1 hrn
        have ha2 : a < (setListAt h a l1).lists.length := by simpa [setListAt] using ha
        obtain ⟨ihn, -⟩ := ih (setListAt h a l1) ha2
        rw [show removeUsedH h a ((k, v) :: rest) =
            removeUsedH (setListAt h a l1) a rest by simp [removeUsedH, hr]]
        exact ihn (by rw [listAt_setListAt_self h a l1 ha]; exact hn)
    · intro l2 hl2
      simp only [removeUsed] at hl2
      cases hrn : removeN (listAt h a) k v with
      | none =>
        rw [hrn] at hl2
        simp at hl2
      | some l1 =>
        rw [hrn] at hl2
        simp only [Option.some_bind] at hl2
        have hr := hs1 l1 hrn
        have ha2 : a < (setListAt h a l1).lists.length := by simpa [setListAt] using ha
        obtain ⟨-, ihs⟩ := ih (setListAt h a l1) ha2
        rw [show removeUsedH h a ((k, v) :: rest) =
            removeUsedH (setListAt h a l1) a rest by simp [removeUsedH, hr]]
        rw [ihs l2 (by rw [listAt_setListAt_self h a l1 ha]; exact hl2)]
        rw [setListAt_setListAt]



theorem removeNH_frame (a k : Nat) (v : Nat) (h : PyHeap) :
    (removeNH h a k v).2.dicts = h.dicts ∧
    (removeNH h a k v).2.lists.length = h.lists.length ∧
    ∀ b, b ≠ a → listAt (removeNH h a k v).2 b = listAt h b := by
  induction v generalizing h with
  | zero => exact ⟨rfl, rfl, fun b _ => rfl⟩
  | succ v ih =>
    by_cases hk : k ∈ listAt h a
    · have hstep : removeListAt h a k = some (setListAt h a ((listAt h a).erase k)) := by
        simp [removeListAt, hk]
      rw [show removeNH h a k (v + 1) =
        removeNH (setListAt h a ((listAt h a).erase k)) a k v by simp [removeNH, hstep]]
      obtain ⟨hd, hl, hb⟩ := ih (setListAt h a ((listAt h a).erase k))
      refine ⟨hd, by simpa [setListAt] using hl, fun b hbne => ?_⟩
      rw [hb b hbne, listAt_setListAt_ne h a b _ hbne]
    · have hstep : removeListAt h a k = none := by simp [removeListAt, hk]
      rw [show removeNH h a k (v + 1) = (false, h) by simp [removeNH, hstep]]
      exact ⟨rfl, rfl, fun b _ => rfl⟩

theorem removeUsedH_frame (used : List (Nat × Nat)) (a : Nat) (h : PyHeap) :
    (removeUsedH h a used).2.dicts = h.dicts ∧
    (removeUsedH h a used).2.lists.length = h.lists.length ∧
    ∀ b, b ≠ a → listAt (removeUsedH h a used).2 b = listAt h b := by
  induction used generalizing h with
  | nil => exact ⟨rfl, rfl, fun b _ => rfl⟩
  | cons p rest ih =>
    obtain ⟨k, v⟩ := p
    obtain ⟨hd1, hl1, hb1⟩ := removeNH_frame a k v h
    cases hr1 : (removeNH h a k v).1 with
    | true =>
      rw [show removeUsedH h a ((k, v) :: rest) =
        removeUsedH (removeNH h a k v).2 a rest by simp [removeUsedH, hr1]]
      obtain ⟨hd2, hl2, hb2⟩ := ih (removeNH h a k v).2
      exact ⟨hd2.trans hd1, hl2.trans hl1,
        fun b hbne => (hb2 b hbne).trans (hb1 b hbne)⟩
    | false =>
      rw [show removeUsedH h a ((k, v) :: rest) = (false, (removeNH h a k v).2) by
        simp [removeUsedH, hr1]]
      exact ⟨hd1, hl1, hb1⟩

/-- Explicit form of `copyStateH`: two fresh cells are allocated for the
init throw-aways and two fresh cells carry the deep copies. -/
theorem copyStateH_eq (h : PyHeap) (s : StateObj) :
    copyStateH h s =
      (⟨h.lists ++ [[], listAt h s.rolledA],
        h.dicts ++ [(List.range s.n_players).map (fun i => (i, 0)), dictAt h s.scoresA]⟩,
       ⟨s.n_players, s.current_round, h.dicts.length + 1, s.can_roll,
        h.lists.length + 1, s.turn_sum⟩) := by
  simp [copyStateH, stateInitH, allocDict, allocList]

theorem rollH_eq (h : PyHeap) (s : StateObj) (rand : Nat → Nat) :
    rollH h s rand =
      (⟨s.n_players, s.current_round, h.dicts.length + 1, 0,
        h.lists.length + 2, s.turn_sum⟩,
       ⟨h.lists ++ [[], listAt h s.rolledA, (List.range s.can_roll.toNat).map rand],
        h.dicts ++ [(List.range s.n_players).map (fun i => (i, 0)), dictAt h s.scoresA]⟩) := by
  simp [rollH, copyStateH_eq, allocList]



theorem getD_append_two {α : Type} (L : List α) (x y : α) (d : α) :
    (L ++ [x, y]).getD (L.length + 1) d = y := by
  rw [List.getD_append_right _ _ _ _ (by omega)]
  simp

theorem listAt_append_lt (h : PyHeap) (L : List (List Nat))
    (D : List (List (Nat × Int))) (a : Nat) (ha : a < h.lists.length) :
    listAt ⟨h.lists ++ L, D⟩ a = listAt h a := by
  simp only [listAt]
  exact List.getD_append _ _ _ _ ha

theorem dictAt_append_lt (h : PyHeap) (L : List (List Nat))
    (D : List (List (Nat × Int))) (a : Nat) (ha : a < h.dicts.length) :
    dictAt ⟨L, h.dicts ++ D⟩ a = dictAt h a := by
  simp only [dictAt]
  exact List.getD_append _ _ _ _ ha

theorem dictAt_set_ne (L : List (List Nat)) (D : List (List (Nat × Int)))
    (a b : Nat) (v : List (Nat × Int)) (hne : b ≠ a) :
    dictAt ⟨L, D.set a v⟩ b = dictAt ⟨L, D⟩ b := by
  simp [dictAt, List.getD_eq_getElem?_getD, List.getElem?_set_ne (Ne.symm hne)]

/-- Frame of `playDiceH`, legal or not: the original object's cells are
untouched (all mutation hits the freshly copied cells). -/
theorem playDiceH_frame (h : PyHeap) (s : StateObj) (a : Action) (hw : WF h s) :
    listAt (playDiceH h s a).2 s.rolledA = listAt h s.rolledA ∧
    dictAt (playDiceH h s a).2 s.scoresA = dictAt h s.scoresA := by
  obtain ⟨hw1, hw2⟩ := hw
  simp only [playDiceH, copyStateH_eq]
  obtain ⟨hd, -, hb⟩ := removeUsedH_frame a.used (h.lists.length + 1)
    ⟨h.lists ++ [[], listAt h s.rolledA],
     h.dicts ++ [(List.range s.n_players).map (fun i => (i, 0)), dictAt h s.scoresA]⟩
  constructor
  · rw [hb s.rolledA (by omega)]
    exact listAt_append_lt h _ _ _ hw1
  · refine Eq.trans (congrArg (fun d => List.getD d s.scoresA []) hd) ?_
    exact dictAt_append_lt h _ _ _ hw2

/-- C5: every transition (`roll`, `play_dice` with a legal action,
`end_turn`) leaves the state object it was called on unchanged — its plain
attributes are never reassigned (they are immutable record fields here) and
the heap cells holding its `rolled_dice` list and `scores` dict keep their
contents — and returns a distinct new state object (its container cells are
freshly allocated, so the returned object differs from the original). -/
theorem transitions_preserve_original (h : PyHeap) (s : StateObj) (hw : WF h s)
    (hkey : s.current_round % s.n_players ∈ (dictAt h s.scoresA).map Prod.fst) :
    (∀ rand : Nat → Nat,
      listAt (rollH h s rand).2 s.rolledA = listAt h s.rolledA ∧
      dictAt (rollH h s rand).2 s.scoresA = dictAt h s.scoresA ∧
      (rollH h s rand).1 ≠ s) ∧
    (∀ a : Action,
      (∀ f ∈ a.used.map Prod.fst, usedCount a.used f ≤ (listAt h s.rolledA).count f) →
      listAt (playDiceH h s a).2 s.rolledA = listAt h s.rolledA ∧
      dictAt (playDiceH h s a).2 s.scoresA = dictAt h s.scoresA ∧
      ∃ o, (playDiceH h s a).1 = some o ∧ o ≠ s) ∧
    (∀ forced : Bool,
      listAt (endTurnH h s forced).2 s.rolledA = listAt h s.rolledA ∧
      dictAt (endTurnH h s forced).2 s.scoresA = dictAt h s.scoresA ∧
      ∃ o, (endTurnH h s forced).1 = some o ∧ o ≠ s) := by
  obtain ⟨hw1, hw2⟩ := hw
  refine ⟨?_, ?_, ?_⟩
  · intro rand
    rw [rollH_eq]
    refine ⟨listAt_append_lt h _ _ _ hw1, dictAt_append_lt h _ _ _ hw2, ?_⟩
    intro he
    have := congrArg StateObj.rolledA he
    simp at this
    omega
  · intro a hsub
    obtain ⟨hf1, hf2⟩ := playDiceH_frame h s a ⟨hw1, hw2⟩
    refine ⟨hf1, hf2, ?_⟩
    have hsub2 : ∀ f, usedCount a.used f ≤ (listAt h s.rolledA).count f := by
      intro f
      by_cases hf : f ∈ a.used.map Prod.fst
      · exact hsub f hf
      · rw [usedCount_eq_zero_of_not_mem a.used f hf]
        exact Nat.zero_le _
    obtain ⟨l2, hl2, -, -⟩ := removeUsed_le a.used (listAt h s.rolledA) hsub2
    simp only [playDiceH, copyStateH_eq]
    have ha : h.lists.length + 1 <
        (⟨h.lists ++ [[], listAt h s.rolledA],
          h.dicts ++ [(List.range s.n_players).map (fun i => (i, 0)),
            dictAt h s.scoresA]⟩ : PyHeap).lists.length := by
      simp
    have hcontent : listAt (⟨h.lists ++ [[], listAt h s.rolledA],
        h.dicts ++ [(List.range s.n_players).map (fun i => (i, 0)),
          dictAt h s.scoresA]⟩ : PyHeap) (h.lists.length + 1) =
        listAt h s.rolledA := by
      simp only [listAt]
      exact getD_append_two _ _ _ _
    obtain ⟨-, hrun⟩ := removeUsedH_run a.used _ _ ha
    rw [hrun l2 (by rw [hcontent]; exact hl2)]
    refine ⟨_, rfl, ?_⟩
    intro he
    have := congrArg StateObj.rolledA he
    simp at this
    omega
  · intro forced
    cases forced with
    | true =>
      rw [show endTurnH h s true =
        (some ⟨s.n_players, s.current_round + 1, h.dicts.length + 1, 6, h.lists.length, 0⟩,
         ⟨h.lists ++ [[]],
          h.dicts ++ [(List.range s.n_players).map (fun i => (i, 0)),
            dictAt h s.scoresA]⟩) by simp [endTurnH, stateInitH, allocDict, allocList]]
      refine ⟨listAt_append_lt h _ _ _ hw1, dictAt_append_lt h _ _ _ hw2, ?_⟩
      refine ⟨_, rfl, ?_⟩
      intro he
      have := congrArg StateObj.scoresA he
      simp at this
      omega
    | false =>
      have hDc : dictAt (⟨h.lists ++ [[]],
          h.dicts ++ [(List.range s.n_players).map (fun i => (i, 0)),
            dictAt h s.scoresA]⟩ : PyHeap) (h.dicts.length + 1) =
          dictAt h s.scoresA := by
        simp only [dictAt]
        exact getD_append_two _ _ _ _
      obtain ⟨d2, hd2⟩ := dictIncr_some (dictAt h s.scoresA)
        (s.current_round % s.n_players) s.turn_sum hkey
      rw [show endTurnH h s false =
        (some ⟨s.n_players, s.current_round + 1, h.dicts.length + 1, 6, h.lists.length, 0⟩,
         setDictAt ⟨h.lists ++ [[]],
          h.dicts ++ [(List.range s.n_players).map (fun i => (i, 0)),
            dictAt h s.scoresA]⟩ (h.dicts.length + 1) d2) by
        simp [endTurnH, stateInitH, allocDict, allocList, hDc, hd2]]
      refine ⟨listAt_append_lt h _ _ _ hw1, ?_, ?_⟩
      · rw [show setDictAt ⟨h.lists ++ [[]],
            h.dicts ++ [(List.range s.n_players).map (fun i => (i, 0)),
              dictAt h s.scoresA]⟩ (h.dicts.length + 1) d2 =
            ⟨h.lists ++ [[]],
              (h.dicts ++ [(List.range s.n_players).map (fun i => (i, 0)),
                dictAt h s.scoresA]).set (h.dicts.length + 1) d2⟩ from rfl]
        rw [dictAt_set_ne _ _ _ _ _ (by omega)]
        exact dictAt_append_lt h _ _ _ hw2
      · refine ⟨_, rfl, ?_⟩
        intro he
        have := congrArg StateObj.scoresA he
        simp at this
        omega



/-- C10: calling `play_dice` with an action that is not a sub-multiset of
the held dice raises `ValueError` (result `none`, from `list.remove` on a
missing die) instead of returning a state, and the original object's cells
are unchanged after the failed call (the partial mutations hit only the
discarded fresh copy). -/
theorem play_dice_illegal_error (h : PyHeap) (s : StateObj) (a : Action) (hw : WF h s)
    (hbad : ∃ f, (listAt h s.rolledA).count f < usedCount a.used f) :
    (playDiceH h s a).1 = none ∧
    listAt (playDiceH h s a).2 s.rolledA = listAt h s.rolledA ∧
    dictAt (playDiceH h s a).2 s.scoresA = dictAt h s.scoresA := by
  obtain ⟨hf1, hf2⟩ := playDiceH_frame h s a hw
  refine ⟨?_, hf1, hf2⟩
  obtain ⟨hw1, hw2⟩ := hw
  have hnone : removeUsed (listAt h s.rolledA) a.used = none := removeUsed_gt _ _ hbad
  simp only [playDiceH, copyStateH_eq]
  have ha : h.lists.length + 1 <
      (⟨h.lists ++ [[], listAt h s.rolledA],
        h.dicts ++ [(List.range s.n_players).map (fun i => (i, 0)),
          dictAt h s.scoresA]⟩ : PyHeap).lists.length := by
    simp
  have hcontent : listAt (⟨h.lists ++ [[], listAt h s.rolledA],
      h.dicts ++ [(List.range s.n_players).map (fun i => (i, 0)),
        dictAt h s.scoresA]⟩ : PyHeap) (h.lists.length + 1) =
      listAt h s.rolledA := by
    simp only [listAt]
    exact getD_append_two _ _ _ _
  obtain ⟨hfail, -⟩ := removeUsedH_run a.used _ _ ha
  have hres := hfail (by rw [hcontent]; exact hnone)
  simp [hres]

/-- Witness for C10: demanding a 3 from held dice `[1, 2]` fails and leaves
the original cells intact. -/
theorem play_dice_illegal_error_witness :
    (playDiceH heapW stateObjW ⟨[(3, 1)], "3", 50⟩).1 = none ∧
    listAt (playDiceH heapW stateObjW ⟨[(3, 1)], "3", 50⟩).2 stateObjW.rolledA =
      listAt heapW stateObjW.rolledA ∧
    dictAt (playDiceH heapW stateObjW ⟨[(3, 1)], "3", 50⟩).2 stateObjW.scoresA =
      dictAt heapW stateObjW.scoresA :=
  play_dice_illegal_error heapW stateObjW ⟨[(3, 1)], "3", 50⟩ (by decide)
    ⟨3, by decide⟩

/-- Witness for C5: all three transitions at a concrete heap and state. -/
theorem transitions_preserve_original_witness :
    (listAt (rollH heapW stateObjW (fun _ => 4)).2 stateObjW.rolledA =
        listAt heapW stateObjW.rolledA ∧
      dictAt (rollH heapW stateObjW (fun _ => 4)).2 stateObjW.scoresA =
        dictAt heapW stateObjW.scoresA ∧
      (rollH heapW stateObjW (fun _ => 4)).1 ≠ stateObjW) ∧
    (listAt (playDiceH heapW stateObjW ⟨[(1, 1)], "1", 100⟩).2 stateObjW.rolledA =
        listAt heapW stateObjW.rolledA ∧
      dictAt (playDiceH heapW stateObjW ⟨[(1, 1)], "1", 100⟩).2 stateObjW.scoresA =
        dictAt heapW stateObjW.scoresA ∧
      ∃ o, (playDiceH heapW stateObjW ⟨[(1, 1)], "1", 100⟩).1 = some o ∧ o ≠ stateObjW) ∧
    (listAt (endTurnH heapW stateObjW false).2 stateObjW.rolledA =
        listAt heapW stateObjW.rolledA ∧
      dictAt (endTurnH heapW stateObjW false).2 stateObjW.scoresA =
        dictAt heapW stateObjW.scoresA ∧
      ∃ o, (endTurnH heapW stateObjW false).1 = some o ∧ o ≠ stateObjW) :=
  ⟨(transitions_preserve_original heapW stateObjW (by decide) (by decide)).1 (fun _ => 4),
   (transitions_preserve_original heapW stateObjW (by decide) (by decide)).2.1
     ⟨[(1, 1)], "1", 100⟩ (by decide),
   (transitions_preserve_original heapW stateObjW (by decide) (by decide)).2.2 false⟩

end Farkle
